import Mathlib

/-!
Shallow embedding of the Mahjong score-tracking match state machine
(`src/mobile/src/store/gameStore.ts`) together with the settlement
calculators it uses, and proofs of the specified properties.

JavaScript `Record<string, number>` objects are modelled as insertion-ordered
association lists (`List (String × Int)`): assignment updates an existing key
in place and appends a fresh key at the end, exactly as JS object semantics
observable through lookup and `Object.values` iteration order.
-/

namespace Mahjong

/-- Cardinal seat winds in the fixed rotation order of the store (`WINDS`). -/
inductive Wind
  | East
  | South
  | West
  | North
deriving DecidableEq

/-- Round winds: the store only cycles the first two winds (`'East' | 'South'`). -/
inductive RoundWind
  | East
  | South
deriving DecidableEq

/-- Match phase tag (`'setup' | 'playing' | 'finished'`). -/
inductive Phase
  | setup
  | playing
  | finished
deriving DecidableEq

/-- The `WINDS` constant of the store. -/
def WINDS : List Wind := [Wind.East, Wind.South, Wind.West, Wind.North]

/-- The `Player` interface from `src/mobile/src/types/index.ts`. -/
structure Player where
  id : String
  name : String
  iconId : String
  seatWind : Wind
  score : Int
  isDealer : Bool
deriving DecidableEq

/-- The `YakuItem` interface (uninterpreted pass-through data). -/
structure YakuItem where
  code : String
  name_zh : String
  name_en : String
  han : Nat
  is_yakuman : Bool
deriving DecidableEq

/-- JavaScript object lookup `m[k]` on the association-list model (`undefined` is `none`). -/
def recGet (m : List (String × Int)) (k : String) : Option Int :=
  (m.find? (fun kv => kv.1 == k)).map Prod.snd

/-- JavaScript object assignment `m[k] = v`: update the key in place if present,
append it otherwise. -/
def recSet (m : List (String × Int)) (k : String) (v : Int) : List (String × Int) :=
  if m.any (fun kv => kv.1 == k) then
    m.map (fun kv => if kv.1 == k then (k, v) else kv)
  else m ++ [(k, v)]

/-- Sum of all values stored in a payment record. -/
def recSum (m : List (String × Int)) : Int := (m.map Prod.snd).sum

/-- Index-passing map starting at index `i`, modelling the `(p, i)` callback of
JavaScript `Array.prototype.map`. -/
def mapiFrom (i : Nat) (f : Nat → α → β) : List α → List β
  | [] => []
  | a :: l => f i a :: mapiFrom (i + 1) f l

/-- JavaScript `players.map((p, i) => ...)`. -/
def mapi (f : Nat → α → β) (l : List α) : List β := mapiFrom 0 f l

/-- The `seatWindOf` helper of the store: seat wind from the offset
`(playerIdx - dealerIdx + count) % count` into `WINDS`. -/
def seatWindOf (playerIdx dealerIdx count : Nat) : Wind :=
  let offset := (((playerIdx : Int) - (dealerIdx : Int) + (count : Int)) % (count : Int)).toNat
  WINDS.getD offset Wind.East

/-- The `computeDrawPayments` calculator of the store. -/
def computeDrawPayments (players : List Player) (tenpaiPlayerIds : List String) :
    List (String × Int) :=
  let payments := players.foldl (fun m p => recSet m p.id 0) []
  let tenpaiCount := tenpaiPlayerIds.length
  let playerCount := players.length
  let notenIds := (players.map Player.id).filter (fun id => !(tenpaiPlayerIds.contains id))
  let notenCount := notenIds.length
  if tenpaiCount = 0 ∨ tenpaiCount = playerCount then payments
  else
    let receivePerTenpai : Int := ((3000 / tenpaiCount : Nat) : Int)
    let payPerNoten : Int := ((3000 / notenCount : Nat) : Int)
    let m1 := tenpaiPlayerIds.foldl (fun m id => recSet m id receivePerTenpai) payments
    notenIds.foldl (fun m id => recSet m id (-payPerNoten)) m1

/-- The `computeTsumoPayments` calculator of the store.  The source dereferences
the winner through a non-null assertion; an absent winner is a caller error there,
modelled here by returning the zeroed record (all claims hypothesise presence). -/
def computeTsumoPayments (players : List Player) (winnerId : String)
    (dealerPayment nonDealerPayment totalPoints : Int) : List (String × Int) :=
  let payments := players.foldl (fun m p => recSet m p.id 0) []
  match players.find? (fun p => p.id == winnerId) with
  | none => payments
  | some winner =>
    let winnerIsDealer := winner.isDealer
    let res := players.foldl
      (fun (acc : List (String × Int) × Int) p =>
        if p.id == winnerId then acc
        else if winnerIsDealer then (recSet acc.1 p.id (-dealerPayment), acc.2 + dealerPayment)
        else
          let pays := if p.isDealer then dealerPayment else nonDealerPayment
          (recSet acc.1 p.id (-pays), acc.2 + pays))
      (payments, 0)
    recSet res.1 winnerId res.2

/-- Ron (win-by-discard) settlement as built inline in `ScoreModal.tsx`:
every player zero, then the loser pays `totalPoints`, the winner receives it. -/
def computeRonPayments (players : List Player) (winnerId loserId : String)
    (totalPoints : Int) : List (String × Int) :=
  let payments := players.foldl (fun m p => recSet m p.id 0) []
  let m1 := recSet payments loserId (-totalPoints)
  recSet m1 winnerId totalPoints

/-- The `Round` record interface. -/
structure Round where
  roundNumber : Nat
  roundWind : RoundWind
  honba : Nat
  riichiBets : Nat
  winnerId : Option String
  loserId : Option String
  isTsumo : Bool
  isDraw : Bool
  tenpaiPlayerIds : List String
  yakuList : List YakuItem
  han : Nat
  fu : Nat
  payments : List (String × Int)
deriving DecidableEq

/-- Argument of `recordWin`: `Omit<Round, 'roundNumber' | 'roundWind' | 'honba' | 'riichiBets'>`. -/
structure RoundInput where
  winnerId : Option String
  loserId : Option String
  isTsumo : Bool
  isDraw : Bool
  tenpaiPlayerIds : List String
  yakuList : List YakuItem
  han : Nat
  fu : Nat
  payments : List (String × Int)
deriving DecidableEq

/-- The session state held by the store (`GameStore` data fields). -/
structure GameState where
  phase : Phase
  players : List Player
  startingScore : Int
  rounds : List Round
  currentRoundNumber : Nat
  currentRoundWind : RoundWind
  honba : Nat
  riichiBets : Nat
  playerRiichi : List Bool
  dealerIndex : Nat
deriving DecidableEq

/-- The initial store state (lines 99-108 of `gameStore.ts`). -/
def initialState : GameState :=
  { phase := Phase.setup
    players := []
    startingScore := 25000
    rounds := []
    currentRoundNumber := 1
    currentRoundWind := RoundWind.East
    honba := 0
    riichiBets := 0
    playerRiichi := []
    dealerIndex := 0 }

/-- The `initGame` action.  Out-of-range `WINDS[i]` (player count above 4) is
`undefined` in JS; `getD` supplies a placeholder never examined by the claims. -/
def initGame (s : GameState) (players : List Player) (startingScore : Int) : GameState :=
  let count := players.length
  let initialised := mapi (fun i p =>
    { p with score := startingScore, isDealer := i == 0, seatWind := WINDS.getD i Wind.East })
    players
  { s with
    phase := Phase.playing
    players := initialised
    startingScore := startingScore
    rounds := []
    currentRoundNumber := 1
    currentRoundWind := RoundWind.East
    honba := 0
    riichiBets := 0
    playerRiichi := List.replicate count false
    dealerIndex := 0 }

/-- The `declareRiichi` action. -/
def declareRiichi (s : GameState) (playerIndex : Nat) : GameState :=
  if s.playerRiichi.getD playerIndex false then s
  else
    { s with
      players := mapi (fun i p =>
        if i == playerIndex then { p with score := p.score - 1000 } else p) s.players
      playerRiichi := s.playerRiichi.set playerIndex true
      riichiBets := s.riichiBets + 1 }

/-- The `undoRiichi` action (`Math.max(0, riichiBets - 1)` is `max 0` on `Nat`). -/
def undoRiichi (s : GameState) (playerIndex : Nat) : GameState :=
  if s.playerRiichi.getD playerIndex false then
    { s with
      players := mapi (fun i p =>
        if i == playerIndex then { p with score := p.score + 1000 } else p) s.players
      playerRiichi := s.playerRiichi.set playerIndex false
      riichiBets := max 0 (s.riichiBets - 1) }
  else s

/-- Winner dealer check of `recordWin`:
`players.find(p => p.id === round.winnerId)?.isDealer ?? false`. -/
def winnerIsDealerOf (players : List Player) (winnerId : Option String) : Bool :=
  ((players.find? (fun p => some p.id == winnerId)).map Player.isDealer).getD false

/-- Values of the mutable `newDealerIndex` / `newRoundNumber` / `newRoundWind` /
`newHonba` / `newPhase` block of `recordWin`. -/
structure Advance where
  dealerIndex : Nat
  roundNumber : Nat
  roundWind : RoundWind
  honba : Nat
  phase : Phase
deriving DecidableEq

/-- The advance block of `recordWin` (lines 191-215 of `gameStore.ts`). -/
def winAdvance (s : GameState) (winnerIsDealer : Bool) : Advance :=
  let count := s.players.length
  if winnerIsDealer then
    { dealerIndex := s.dealerIndex
      roundNumber := s.currentRoundNumber
      roundWind := s.currentRoundWind
      honba := s.honba + 1
      phase := Phase.playing }
  else
    let newDealerIndex := (s.dealerIndex + 1) % count
    if newDealerIndex = 0 then
      if s.currentRoundWind = RoundWind.East then
        { dealerIndex := newDealerIndex
          roundNumber := 1
          roundWind := RoundWind.South
          honba := 0
          phase := Phase.playing }
      else
        { dealerIndex := newDealerIndex
          roundNumber := s.currentRoundNumber
          roundWind := s.currentRoundWind
          honba := 0
          phase := Phase.finished }
    else
      { dealerIndex := newDealerIndex
        roundNumber := newDealerIndex + 1
        roundWind := s.currentRoundWind
        honba := 0
        phase := Phase.playing }

/-- The `recordWin` action. -/
def recordWin (s : GameState) (round : RoundInput) : GameState :=
  let fullRound : Round :=
    { roundNumber := s.currentRoundNumber
      roundWind := s.currentRoundWind
      honba := s.honba
      riichiBets := s.riichiBets
      winnerId := round.winnerId
      loserId := round.loserId
      isTsumo := round.isTsumo
      isDraw := round.isDraw
      tenpaiPlayerIds := round.tenpaiPlayerIds
      yakuList := round.yakuList
      han := round.han
      fu := round.fu
      payments := round.payments }
  let updatedPlayers := s.players.map (fun p =>
    { p with score := p.score + ((recGet round.payments p.id).getD 0) })
  let count := s.players.length
  let adv := winAdvance s (winnerIsDealerOf s.players round.winnerId)
  let reassigned := mapi (fun i p =>
    { p with isDealer := i == adv.dealerIndex, seatWind := seatWindOf i adv.dealerIndex count })
    updatedPlayers
  { s with
    players := reassigned
    rounds := fullRound :: s.rounds
    currentRoundNumber := adv.roundNumber
    currentRoundWind := adv.roundWind
    honba := adv.honba
    riichiBets := 0
    playerRiichi := List.replicate count false
    dealerIndex := adv.dealerIndex
    phase := adv.phase }

/-- Values of the mutable advance block of `recordDraw` (honba handled outside it). -/
structure DrawAdvance where
  dealerIndex : Nat
  roundNumber : Nat
  roundWind : RoundWind
  phase : Phase
deriving DecidableEq

/-- The advance block of `recordDraw` (lines 274-293 of `gameStore.ts`). -/
def drawAdvance (s : GameState) (dealerIsTenpai : Bool) : DrawAdvance :=
  let count := s.players.length
  if dealerIsTenpai then
    { dealerIndex := s.dealerIndex
      roundNumber := s.currentRoundNumber
      roundWind := s.currentRoundWind
      phase := Phase.playing }
  else
    let newDealerIndex := (s.dealerIndex + 1) % count
    if newDealerIndex = 0 then
      if s.currentRoundWind = RoundWind.East then
        { dealerIndex := newDealerIndex
          roundNumber := 1
          roundWind := RoundWind.South
          phase := Phase.playing }
      else
        { dealerIndex := newDealerIndex
          roundNumber := s.currentRoundNumber
          roundWind := s.currentRoundWind
          phase := Phase.finished }
    else
      { dealerIndex := newDealerIndex
        roundNumber := newDealerIndex + 1
        roundWind := s.currentRoundWind
        phase := Phase.playing }

/-- The `recordDraw` action.  `riichiBets` is deliberately not written back
(bets remain on the table after a draw), while `playerRiichi` is reset. -/
def recordDraw (s : GameState) (tenpaiPlayerIds : List String) : GameState :=
  let payments := computeDrawPayments s.players tenpaiPlayerIds
  let fullRound : Round :=
    { roundNumber := s.currentRoundNumber
      roundWind := s.currentRoundWind
      honba := s.honba
      riichiBets := s.riichiBets
      winnerId := none
      loserId := none
      isTsumo := false
      isDraw := true
      tenpaiPlayerIds := tenpaiPlayerIds
      yakuList := []
      han := 0
      fu := 0
      payments := payments }
  let updatedPlayers := s.players.map (fun p =>
    { p with score := p.score + ((recGet payments p.id).getD 0) })
  let count := s.players.length
  let dealerIsTenpai := ((s.players.get? s.dealerIndex).map
    (fun p => tenpaiPlayerIds.contains p.id)).getD false
  let adv := drawAdvance s dealerIsTenpai
  let reassigned := mapi (fun i p =>
    { p with isDealer := i == adv.dealerIndex, seatWind := seatWindOf i adv.dealerIndex count })
    updatedPlayers
  { s with
    players := reassigned
    rounds := fullRound :: s.rounds
    currentRoundNumber := adv.roundNumber
    currentRoundWind := adv.roundWind
    honba := s.honba + 1
    playerRiichi := List.replicate count false
    dealerIndex := adv.dealerIndex
    phase := adv.phase }

/-- The `endGame` action (the `conclude` operation of the spec). -/
def endGame (s : GameState) : GameState := { s with phase := Phase.finished }

/-- The `resetGame` action (`startingScore` is not reset by the source). -/
def resetGame (s : GameState) : GameState :=
  { s with
    phase := Phase.setup
    players := []
    rounds := []
    currentRoundNumber := 1
    currentRoundWind := RoundWind.East
    honba := 0
    riichiBets := 0
    playerRiichi := []
    dealerIndex := 0 }

/-- Round-settling operations (the alphabet of the conservation claim). -/
inductive GameOp
  | win : RoundInput → GameOp
  | draw : List String → GameOp

/-- Apply one round-settling operation. -/
def applyOp (s : GameState) (op : GameOp) : GameState :=
  match op with
  | GameOp.win r => recordWin s r
  | GameOp.draw t => recordDraw s t

/-- Run a sequence of round-settling operations. -/
def runOps (s : GameState) (ops : List GameOp) : GameState := ops.foldl applyOp s

/-- In-session operations (the alphabet of the dealer/seat-wind invariant claim;
`resetGame` tears the session down and returns the phase to `setup`). -/
inductive SessionOp
  | declare : Nat → SessionOp
  | undo : Nat → SessionOp
  | win : RoundInput → SessionOp
  | draw : List String → SessionOp
  | conclude : SessionOp

/-- Apply one in-session operation. -/
def applySessionOp (s : GameState) (op : SessionOp) : GameState :=
  match op with
  | SessionOp.declare i => declareRiichi s i
  | SessionOp.undo i => undoRiichi s i
  | SessionOp.win r => recordWin s r
  | SessionOp.draw t => recordDraw s t
  | SessionOp.conclude => endGame s

/-- Run a sequence of in-session operations. -/
def runSession (s : GameState) (ops : List SessionOp) : GameState :=
  ops.foldl applySessionOp s

/-- List of player identifiers, in seating order. -/
def playerIds (players : List Player) : List String := players.map Player.id

/-- Payment mapping of a win produced per the Settlement Calculator rules:
either a self-draw settlement via `computeTsumoPayments`, or the direct
two-party ron transfer of `ScoreModal`. -/
def ValidWin (s : GameState) (r : RoundInput) : Prop :=
  (∃ wid dp ndp tp, r.winnerId = some wid ∧ wid ∈ playerIds s.players ∧
      r.payments = computeTsumoPayments s.players wid dp ndp tp)
  ∨ (∃ wid lid tp, r.winnerId = some wid ∧ r.loserId = some lid ∧ wid ≠ lid ∧
      wid ∈ playerIds s.players ∧ lid ∈ playerIds s.players ∧
      r.payments = computeRonPayments s.players wid lid tp)

/-- A draw whose tenpai argument is a set of player identifiers. -/
def ValidDraw (s : GameState) (t : List String) : Prop :=
  t.Nodup ∧ ∀ id ∈ t, id ∈ playerIds s.players

/-- Trace of round-settling operations, each valid in the state it is applied to. -/
inductive ValidTrace : GameState → List GameOp → Prop
  | nil (s : GameState) : ValidTrace s []
  | win (s : GameState) (r : RoundInput) (ops : List GameOp) :
      ValidWin s r → ValidTrace (recordWin s r) ops → ValidTrace s (GameOp.win r :: ops)
  | draw (s : GameState) (t : List String) (ops : List GameOp) :
      ValidDraw s t → ValidTrace (recordDraw s t) ops → ValidTrace s (GameOp.draw t :: ops)

/-- Sum of all player scores. -/
def scoreSum (s : GameState) : Int := (s.players.map Player.score).sum

/-- Sum of the payment deltas a record applies to a player list
(`p.score + (payments[p.id] ?? 0)`). -/
def appliedSum (players : List Player) (m : List (String × Int)) : Int :=
  (players.map (fun p => (recGet m p.id).getD 0)).sum

/-- Total outgoing tsumo payment collected by the winner. -/
def tsumoCollected (players : List Player) (winnerId : String) (out : Player → Int) : Int :=
  ((players.filter (fun p => !(p.id == winnerId))).map out).sum

/-- Outgoing tsumo contribution of one non-winning player: the dealer rate when
the winner is the dealer or the payer is the dealer, the non-dealer rate otherwise. -/
def tsumoOut (winnerIsDealer : Bool) (dealerPayment nonDealerPayment : Int)
    (p : Player) : Int :=
  if winnerIsDealer then dealerPayment
  else if p.isDealer then dealerPayment else nonDealerPayment

/-- Dealer-flag / seat-wind invariant: the dealer index is in range, exactly the
player at `dealerIndex` carries the dealer flag, and every seat wind is the
cardinal wind at offset `(playerIdx - dealerIdx + count) % count`. -/
def DealerInv (s : GameState) : Prop :=
  s.dealerIndex < s.players.length ∧
  ∀ j p, s.players.get? j = some p →
    (p.isDealer = (j == s.dealerIndex) ∧
     p.seatWind = seatWindOf j s.dealerIndex s.players.length)

/-- Conservation invariant carried along valid traces. -/
def ConsInv (n0 : Nat) (sc : Int) (s : GameState) : Prop :=
  (playerIds s.players).Nodup ∧ s.players.length = n0 ∧ s.riichiBets = 0 ∧
  scoreSum s = (n0 : Int) * sc

/-- Concrete four players used by the witnesses. -/
def pA : Player :=
  { id := "a", name := "A", iconId := "i1", seatWind := Wind.East, score := 0, isDealer := false }

/-- Second concrete player. -/
def pB : Player :=
  { id := "b", name := "B", iconId := "i2", seatWind := Wind.East, score := 0, isDealer := false }

/-- Third concrete player. -/
def pC : Player :=
  { id := "c", name := "C", iconId := "i3", seatWind := Wind.East, score := 0, isDealer := false }

/-- Fourth concrete player. -/
def pD : Player :=
  { id := "d", name := "D", iconId := "i4", seatWind := Wind.East, score := 0, isDealer := false }

/-- Fifth concrete player (used for the unsupported player-count input). -/
def pE : Player :=
  { id := "e", name := "E", iconId := "i5", seatWind := Wind.East, score := 0, isDealer := false }

/-- Standard four-player seating. -/
def ps4 : List Player := [pA, pB, pC, pD]

/-- Unsupported five-player seating. -/
def ps5 : List Player := [pA, pB, pC, pD, pE]

/-- A concrete ron round input: dealer `"a"` wins 1000 off `"b"` (payments as
`ScoreModal` builds them). -/
def ronRoundA : RoundInput :=
  { winnerId := some "a"
    loserId := some "b"
    isTsumo := false
    isDraw := false
    tenpaiPlayerIds := []
    yakuList := []
    han := 1
    fu := 30
    payments := computeRonPayments (initGame initialState ps4 25000).players "a" "b" 1000 }

/-- Length is preserved by the index-passing map. -/
theorem mapiFrom_length (f : Nat → α → β) (l : List α) :
    ∀ i, (mapiFrom i f l).length = l.length := by
  induction l with
  | nil => intro i; rfl
  | cons a l ih => intro i; simp [mapiFrom, ih]

/-- Length is preserved by `mapi`. -/
theorem mapi_length (f : Nat → α → β) (l : List α) : (mapi f l).length = l.length :=
  mapiFrom_length f l 0

/-- Element lookup under the index-passing map. -/
theorem mapiFrom_get? (f : Nat → α → β) (l : List α) :
    ∀ i n, (mapiFrom i f l).get? n = (l.get? n).map (f (i + n)) := by
  induction l with
  | nil => intro i n; cases n <;> rfl
  | cons a l ih =>
    intro i n
    cases n with
    | zero => rfl
    | succ n =>
      show (mapiFrom (i + 1) f l).get? n = (l.get? n).map (f (i + (n + 1)))
      rw [ih (i + 1) n, show i + 1 + n = i + (n + 1) from by omega]

/-- Element lookup under `mapi`. -/
theorem mapi_get? (f : Nat → α → β) (l : List α) (n : Nat) :
    (mapi f l).get? n = (l.get? n).map (f n) := by
  simpa [mapi] using mapiFrom_get? f l 0 n

/-- A projection untouched by the mapped function passes through `mapiFrom`. -/
theorem mapiFrom_map_proj (f : Nat → α → β) (g : β → γ) (h : α → γ)
    (H : ∀ i a, g (f i a) = h a) (l : List α) :
    ∀ i, (mapiFrom i f l).map g = l.map h := by
  induction l with
  | nil => intro i; rfl
  | cons a l ih => intro i; simp [mapiFrom, H, ih]

/-- A pointwise-identity function makes `mapiFrom` the identity. -/
theorem mapiFrom_id (f : Nat → α → α) (H : ∀ i a, f i a = a) (l : List α) :
    ∀ i, mapiFrom i f l = l := by
  induction l with
  | nil => intro i; rfl
  | cons a l ih => intro i; simp [mapiFrom, H, ih]

/-- Composition of two index-passing maps. -/
theorem mapiFrom_comp (f g : Nat → α → α) (l : List α) :
    ∀ i, mapiFrom i f (mapiFrom i g l) = mapiFrom i (fun n a => f n (g n a)) l := by
  induction l with
  | nil => intro i; rfl
  | cons a l ih => intro i; simp [mapiFrom, ih]

/-- Sums split over pointwise addition. -/
theorem sum_map_add (l : List α) (F G : α → Int) :
    (l.map (fun a => F a + G a)).sum = (l.map F).sum + (l.map G).sum := by
  induction l with
  | nil => rfl
  | cons a l ih => simp only [List.map_cons, List.sum_cons, ih]; ring

/-- Sum of a constant map. -/
theorem sum_map_constI (l : List α) (c : Int) :
    (l.map (fun _ => c)).sum = (l.length : Int) * c := by
  induction l with
  | nil => simp
  | cons a l ih => simp [ih]; ring

/-- Sum of a pointwise negation. -/
theorem sum_map_neg (l : List α) (F : α → Int) :
    (l.map (fun a => -(F a))).sum = -((l.map F).sum) := by
  induction l with
  | nil => simp
  | cons a l ih => simp only [List.map_cons, List.sum_cons, ih]; ring

/-- Sum of a two-valued map, counted by `countP`. -/
theorem sum_map_iteb (l : List α) (q : α → Bool) (a b : Int) :
    (l.map (fun x => if q x then a else b)).sum =
      (l.countP q : Int) * a + (l.countP (fun x => !(q x)) : Int) * b := by
  induction l with
  | nil => simp
  | cons x l ih =>
    simp only [List.map_cons, List.sum_cons, List.countP_cons, ih]
    by_cases h : q x = true
    · simp only [h, if_true, Bool.not_true, if_false]
      push_cast
      ring
    · simp only [h, if_false, Bool.not_eq_true] at *
      simp only [h, Bool.not_false, if_true, if_false]
      push_cast
      ring

/-- Filtering a predicate and its negation partitions the length. -/
theorem length_filter_partition (l : List α) (p : α → Bool) :
    (l.filter p).length + (l.filter (fun a => !(p a))).length = l.length := by
  induction l with
  | nil => rfl
  | cons a l ih =>
    by_cases h : p a = true
    · rw [List.filter_cons_of_pos h, List.filter_cons_of_neg (by simp [h])]
      simp only [List.length_cons]
      omega
    · rw [List.filter_cons_of_neg h, List.filter_cons_of_pos (by simpa using h)]
      simp only [List.length_cons]
      omega

/-- Presence test used by `recSet` on a record keyed by player ids. -/
theorem any_id_eq (l : List Player) (k : String) :
    (l.any (fun p => p.id == k) = true) ↔ k ∈ playerIds l := by
  rw [List.any_eq_true]
  constructor
  · rintro ⟨p, hp, hpk⟩
    exact (by simpa using hpk : p.id = k) ▸ List.mem_map_of_mem Player.id hp
  · intro hk
    rcases List.mem_map.mp hk with ⟨p, hp, hpk⟩
    exact ⟨p, hp, by simp [hpk]⟩

/-- Setting an already-present key updates a player-keyed record in place. -/
theorem recSet_mapform (l : List Player) (f : Player → Int) (k : String) (v : Int)
    (hk : k ∈ playerIds l) :
    recSet (l.map (fun p => (p.id, f p))) k v =
      l.map (fun p => (p.id, if p.id == k then v else f p)) := by
  have hany : (l.map (fun p => (p.id, f p))).any (fun kv => kv.1 == k) = true := by
    rw [List.any_eq_true]
    rcases List.mem_map.mp hk with ⟨p, hp, hpk⟩
    exact ⟨(p.id, f p), List.mem_map_of_mem _ hp, by simp [hpk]⟩
  rw [recSet, if_pos hany, List.map_map]
  refine List.map_eq_map_iff.mpr ?_
  intro p _
  by_cases h : p.id = k <;> simp [Function.comp, h]

/-- Lookup of a member player in a player-keyed record. -/
theorem mapform_recGet (l : List Player) (f : Player → Int) :
    ∀ (hnd : (playerIds l).Nodup) (p : Player), p ∈ l →
      recGet (l.map (fun q => (q.id, f q))) p.id = some (f p) := by
  induction l with
  | nil => intro _ p hp; cases hp
  | cons a l ih =>
    intro hnd p hp
    have hnds : (a.id :: playerIds l).Nodup := by simpa [playerIds] using hnd
    have hnm : a.id ∉ playerIds l := (List.nodup_cons.mp hnds).1
    have hnd' : (playerIds l).Nodup := (List.nodup_cons.mp hnds).2
    by_cases h : a.id == p.id
    · have heq : a.id = p.id := by simpa using h
      have hpa : p = a := by
        rcases List.mem_cons.mp hp with h1 | h1
        · exact h1
        · exact absurd (heq ▸ List.mem_map_of_mem Player.id h1) hnm
      subst hpa
      rw [List.map_cons, recGet, List.find?_cons_of_pos _ (by simp)]
      rfl
    · have hne : p ≠ a := fun hpa => h (by rw [hpa]; simp)
      have hpl : p ∈ l := by
        rcases List.mem_cons.mp hp with h1 | h1
        · exact absurd h1.symm (Ne.symm hne)
        · exact h1
      rw [List.map_cons, recGet, List.find?_cons_of_neg _ (by simpa using h)]
      exact ih hnd' p hpl

/-- Under distinct ids, `find?` locates exactly the member with the sought id. -/
theorem find?_id_of_nodup (l : List Player) :
    ∀ (hnd : (playerIds l).Nodup) (w : Player), w ∈ l → ∀ (wid : String), w.id = wid →
      l.find? (fun p => p.id == wid) = some w := by
  induction l with
  | nil => intro _ w hw; cases hw
  | cons a l ih =>
    intro hnd w hw wid hwid
    have hnds : (a.id :: playerIds l).Nodup := by simpa [playerIds] using hnd
    have hnm : a.id ∉ playerIds l := (List.nodup_cons.mp hnds).1
    have hnd' : (playerIds l).Nodup := (List.nodup_cons.mp hnds).2
    by_cases h : a.id == wid
    · have heq : a.id = wid := by simpa using h
      have hwa : w = a := by
        rcases List.mem_cons.mp hw with h1 | h1
        · exact h1
        · exact absurd ((hwid.trans heq.symm) ▸ List.mem_map_of_mem Player.id h1) hnm
      subst hwa
      exact List.find?_cons_of_pos _ h
    · have hne : w ≠ a := fun hwa => h (by rw [← hwid, hwa]; simp)
      have hwl : w ∈ l := by
        rcases List.mem_cons.mp hw with h1 | h1
        · exact absurd h1 hne
        · exact h1
      rw [List.find?_cons_of_neg _ (by simpa using h)]
      exact ih hnd' w hwl wid hwid

/-- Seeding the record with all player ids at value zero. -/
theorem foldl_recSet_fresh (l : List Player) :
    ∀ (acc : List (String × Int)), (playerIds l).Nodup →
      (∀ p ∈ l, acc.any (fun kv => kv.1 == p.id) = false) →
      l.foldl (fun m p => recSet m p.id 0) acc = acc ++ l.map (fun p => (p.id, 0)) := by
  induction l with
  | nil => intro acc _ _; simp
  | cons a l ih =>
    intro acc hnd hacc
    have hnds : (a.id :: playerIds l).Nodup := by simpa [playerIds] using hnd
    have hnm : a.id ∉ playerIds l := (List.nodup_cons.mp hnds).1
    have hnd' : (playerIds l).Nodup := (List.nodup_cons.mp hnds).2
    have h1 : recSet acc a.id 0 = acc ++ [(a.id, 0)] := by
      rw [recSet, if_neg (by simp [hacc a (List.mem_cons_self a l)])]
    have hacc' : ∀ p ∈ l, (acc ++ [(a.id, 0)]).any (fun kv => kv.1 == p.id) = false := by
      intro p hp
      rw [List.any_append]
      have h2 : acc.any (fun kv => kv.1 == p.id) = false := hacc p (List.mem_cons_of_mem a hp)
      have h3 : a.id ≠ p.id := fun he => hnm (he ▸ List.mem_map_of_mem Player.id hp)
      simp [h2, h3]
    rw [List.foldl_cons, h1, ih (acc ++ [(a.id, 0)]) hnd' hacc']
    simp

/-- The zero-seeding fold from the empty record is the zero record. -/
theorem base_fold_mapform (l : List Player) (hnd : (playerIds l).Nodup) :
    l.foldl (fun m p => recSet m p.id 0) [] = l.map (fun p => (p.id, 0)) := by
  simpa using foldl_recSet_fresh l [] hnd (fun p _ => rfl)

/-- A constant-valued fold of `recSet` over present keys rewrites the record pointwise. -/
theorem foldl_recSet_const (P : List Player) (c : Int) (l : List String) :
    ∀ (f : Player → Int), (∀ k ∈ l, k ∈ playerIds P) →
      l.foldl (fun m k => recSet m k c) (P.map (fun p => (p.id, f p))) =
        P.map (fun p => (p.id, if l.contains p.id then c else f p)) := by
  induction l with
  | nil =>
    intro f _
    refine List.map_eq_map_iff.mpr ?_
    intro p _
    simp
  | cons k0 rest ih =>
    intro f hsub
    have hk0 : k0 ∈ playerIds P := hsub k0 (List.mem_cons_self _ _)
    rw [List.foldl_cons, recSet_mapform P f k0 c hk0,
      ih _ (fun k hk => hsub k (List.mem_cons_of_mem _ hk))]
    refine List.map_eq_map_iff.mpr ?_
    intro p _
    by_cases h1 : p.id = k0 <;> by_cases h2 : rest.contains p.id <;>
      simp [List.contains_cons, h1, h2]

/-- Filtering a superlist down to the members of a duplicate-free sublist keeps
exactly the sublist's length. -/
theorem length_filter_contains (ids t : List String) (hnd : ids.Nodup) (ht : t.Nodup)
    (hsub : ∀ k ∈ t, k ∈ ids) :
    (ids.filter (fun k => t.contains k)).length = t.length := by
  have hnd1 : (ids.filter (fun k => t.contains k)).Nodup := hnd.filter _
  have hfin : (ids.filter (fun k => t.contains k)).toFinset = t.toFinset := by
    ext x
    simp only [List.mem_toFinset]
    constructor
    · intro hx
      exact List.elem_iff.mp (List.mem_filter.mp hx).2
    · intro hx
      exact List.mem_filter.mpr ⟨hsub x hx, List.elem_iff.mpr hx⟩
  rw [← List.toFinset_card_of_nodup hnd1, hfin, List.toFinset_card_of_nodup ht]

/-- Count of the members of a duplicate-free sublist inside a superlist. -/
theorem countP_contains (ids t : List String) (hnd : ids.Nodup) (ht : t.Nodup)
    (hsub : ∀ k ∈ t, k ∈ ids) :
    ids.countP (fun k => t.contains k) = t.length := by
  rw [List.countP_eq_length_filter]
  exact length_filter_contains ids t hnd ht hsub

/-- Length of the noten id list computed by the draw calculator. -/
theorem length_filter_not_contains (ids t : List String) (hnd : ids.Nodup) (ht : t.Nodup)
    (hsub : ∀ k ∈ t, k ∈ ids) :
    (ids.filter (fun k => !(t.contains k))).length = ids.length - t.length := by
  have h1 := length_filter_contains ids t hnd ht hsub
  have h2 := length_filter_partition ids (fun k => t.contains k)
  omega

/-- A duplicate-free sublist is no longer than its superlist. -/
theorem length_le_of_nodup_subset (t ids : List String) (ht : t.Nodup)
    (hsub : ∀ k ∈ t, k ∈ ids) : t.length ≤ ids.length :=
  (List.Nodup.subperm ht (fun {k} hk => hsub k hk)).length_le

/-- Full-cover criterion: a duplicate-free subset has full length iff it
contains every id of the superlist. -/
theorem length_eq_iff_all_mem (ids t : List String) (hnd : ids.Nodup) (ht : t.Nodup)
    (hsub : ∀ k ∈ t, k ∈ ids) : t.length = ids.length ↔ ∀ k ∈ ids, k ∈ t := by
  constructor
  · intro hlen k hk
    have hsubF : t.toFinset ⊆ ids.toFinset := by
      intro x hx
      exact List.mem_toFinset.mpr (hsub x (List.mem_toFinset.mp hx))
    have hcard : ids.toFinset.card ≤ t.toFinset.card := by
      rw [List.toFinset_card_of_nodup hnd, List.toFinset_card_of_nodup ht]
      omega
    have heq : t.toFinset = ids.toFinset := Finset.eq_of_subset_of_card_le hsubF hcard
    exact List.mem_toFinset.mp (heq ▸ List.mem_toFinset.mpr hk)
  · intro hall
    have h1 : t.length ≤ ids.length := length_le_of_nodup_subset t ids ht hsub
    have h2 : ids.length ≤ t.length := length_le_of_nodup_subset ids t hnd hall
    omega

/-- Guard case of the draw calculator: an empty or full tenpai list yields the
all-zero record over the player list. -/
theorem computeDrawPayments_guard (players : List Player) (t : List String)
    (hnd : (playerIds players).Nodup)
    (hguard : t.length = 0 ∨ t.length = players.length) :
    computeDrawPayments players t = players.map (fun p => (p.id, 0)) := by
  simp only [computeDrawPayments]
  rw [if_pos hguard]
  exact base_fold_mapform players hnd

/-- Exchange case of the draw calculator, as a pointwise record over the players. -/
theorem computeDrawPayments_else (players : List Player) (t : List String)
    (hnd : (playerIds players).Nodup) (ht : t.Nodup)
    (hsub : ∀ k ∈ t, k ∈ playerIds players)
    (hguard : ¬(t.length = 0 ∨ t.length = players.length)) :
    computeDrawPayments players t =
      players.map (fun p => (p.id,
        if t.contains p.id then ((3000 / t.length : Nat) : Int)
        else -(((3000 / (players.length - t.length) : Nat) : Int)))) := by
  have hlen : ((players.map Player.id).filter (fun k => !(t.contains k))).length
      = players.length - t.length := by
    have h := length_filter_not_contains (playerIds players) t hnd ht hsub
    simpa [playerIds] using h
  have hsub2 : ∀ k ∈ (players.map Player.id).filter (fun k => !(t.contains k)),
      k ∈ playerIds players := by
    intro k hk
    exact (List.mem_filter.mp hk).1
  simp only [computeDrawPayments]
  rw [if_neg hguard, base_fold_mapform players hnd]
  have e2 := foldl_recSet_const players ((3000 / t.length : Nat) : Int) t (fun _ => 0) hsub
  beta_reduce at e2
  rw [e2]
  have e3 := foldl_recSet_const players
    (-(((3000 / ((players.map Player.id).filter (fun k => !(t.contains k))).length : Nat) : Int)))
    ((players.map Player.id).filter (fun k => !(t.contains k)))
    (fun p => if t.contains p.id then ((3000 / t.length : Nat) : Int) else 0) hsub2
  beta_reduce at e3
  rw [e3]
  refine List.map_eq_map_iff.mpr ?_
  intro p hp
  have hpid : p.id ∈ players.map Player.id := List.mem_map_of_mem Player.id hp
  by_cases hc : t.contains p.id
  · have h4 : ((players.map Player.id).filter (fun k => !(t.contains k))).contains p.id
        = false := by
      rw [Bool.eq_false_iff]
      intro habs
      have hmem := List.mem_filter.mp (List.elem_iff.mp habs)
      have hnot : p.id ∉ t := by simpa using hmem.2
      exact hnot (List.elem_iff.mp hc)
    rw [h4, hc]
    norm_num
  · have hcf : t.contains p.id = false := Bool.eq_false_iff.mpr hc
    have h4 : ((players.map Player.id).filter (fun k => !(t.contains k))).contains p.id
        = true :=
      List.elem_iff.mpr (List.mem_filter.mpr ⟨hpid, by rw [hcf]; norm_num⟩)
    rw [h4, hcf, hlen]
    norm_num

/-- Record sum of a player-keyed record. -/
theorem recSum_mapform (P : List Player) (g : Player → Int) :
    recSum (P.map (fun p => (p.id, g p))) = (P.map g).sum := by
  rw [recSum, List.map_map]
  rfl

/-- Lookup-applied sum over a player-keyed record. -/
theorem appliedSum_mapform (P : List Player) (hnd : (playerIds P).Nodup) (g : Player → Int) :
    appliedSum P (P.map (fun p => (p.id, g p))) = (P.map g).sum := by
  have h : ∀ p ∈ P, ((recGet (P.map (fun q => (q.id, g q))) p.id).getD 0) = g p := by
    intro p hp
    rw [mapform_recGet P g hnd p hp]
    rfl
  rw [appliedSum]
  exact congrArg List.sum (List.map_eq_map_iff.mpr h)

/-- Arithmetic core of the draw split at three or four players: both sides of
the 3000-point pool divide evenly, so the split balances. -/
theorem draw_split_arith (n tl : Nat) (hn : n = 3 ∨ n = 4) (h1 : 1 ≤ tl) (h2 : tl < n) :
    (tl : Int) * ((3000 / tl : Nat) : Int) +
      ((n - tl : Nat) : Int) * (-(((3000 / (n - tl) : Nat) : Int))) = 0 := by
  rcases hn with rfl | rfl <;> interval_cases tl <;> decide

/-- Sum of the exchange-case draw values over the player list. -/
theorem draw_value_sum (players : List Player) (t : List String)
    (hnd : (playerIds players).Nodup) (ht : t.Nodup)
    (hsub : ∀ k ∈ t, k ∈ playerIds players)
    (hn : players.length = 3 ∨ players.length = 4)
    (hguard : ¬(t.length = 0 ∨ t.length = players.length)) :
    (players.map (fun p =>
      if t.contains p.id then ((3000 / t.length : Nat) : Int)
      else -(((3000 / (players.length - t.length) : Nat) : Int)))).sum = 0 := by
  have hc1 : players.countP (fun p => t.contains p.id) = t.length := by
    have h := countP_contains (playerIds players) t hnd ht hsub
    have hm := List.countP_map (fun k => t.contains k) Player.id players
    simp only [playerIds] at h
    rw [hm] at h
    exact h
  have hc2 : players.countP (fun p => !(t.contains p.id)) = players.length - t.length := by
    have hp := length_filter_partition players (fun p => t.contains p.id)
    rw [← List.countP_eq_length_filter, ← List.countP_eq_length_filter] at hp
    omega
  have htle : t.length ≤ players.length := by
    have := length_le_of_nodup_subset t (playerIds players) ht hsub
    simpa [playerIds] using this
  rw [sum_map_iteb players (fun p => t.contains p.id) _ _, hc1, hc2]
  exact draw_split_arith players.length t.length hn (by omega) (by omega)

/-- Record-value sum of the draw calculator is zero at three or four players. -/
theorem computeDrawPayments_recSum_zero (players : List Player) (t : List String)
    (hnd : (playerIds players).Nodup) (ht : t.Nodup)
    (hsub : ∀ k ∈ t, k ∈ playerIds players)
    (hn : players.length = 3 ∨ players.length = 4) :
    recSum (computeDrawPayments players t) = 0 := by
  by_cases hguard : t.length = 0 ∨ t.length = players.length
  · rw [computeDrawPayments_guard players t hnd hguard]
    have hr := recSum_mapform players (fun _ => 0)
    beta_reduce at hr
    rw [hr, sum_map_constI]
    ring
  · rw [computeDrawPayments_else players t hnd ht hsub hguard]
    have hr := recSum_mapform players (fun p =>
      if t.contains p.id then ((3000 / t.length : Nat) : Int)
      else -(((3000 / (players.length - t.length) : Nat) : Int)))
    beta_reduce at hr
    rw [hr]
    exact draw_value_sum players t hnd ht hsub hn hguard

/-- Applied payment deltas of the draw calculator sum to zero at 3-4 players. -/
theorem computeDrawPayments_appliedSum_zero (players : List Player) (t : List String)
    (hnd : (playerIds players).Nodup) (ht : t.Nodup)
    (hsub : ∀ k ∈ t, k ∈ playerIds players)
    (hn : players.length = 3 ∨ players.length = 4) :
    appliedSum players (computeDrawPayments players t) = 0 := by
  by_cases hguard : t.length = 0 ∨ t.length = players.length
  · rw [computeDrawPayments_guard players t hnd hguard]
    have hr := appliedSum_mapform players hnd (fun _ => 0)
    beta_reduce at hr
    rw [hr, sum_map_constI]
    ring
  · rw [computeDrawPayments_else players t hnd ht hsub hguard]
    have hr := appliedSum_mapform players hnd (fun p =>
      if t.contains p.id then ((3000 / t.length : Nat) : Int)
      else -(((3000 / (players.length - t.length) : Nat) : Int)))
    beta_reduce at hr
    rw [hr]
    exact draw_value_sum players t hnd ht hsub hn hguard

/-- String equality tests are symmetric. -/
theorem beq_symm_str (a b : String) : (a == b) = (b == a) := by
  by_cases h : a = b
  · simp [h]
  · simp [h, Ne.symm h]

/-- The fold body of `computeTsumoPayments` in canonical outgoing form. -/
theorem tsumo_step_eq (wid : String) (wib : Bool) (dp ndp : Int) :
    (fun (acc : List (String × Int) × Int) (p : Player) =>
      if p.id == wid then acc
      else if wib then (recSet acc.1 p.id (-dp), acc.2 + dp)
      else
        let pays := if p.isDealer then dp else ndp
        (recSet acc.1 p.id (-pays), acc.2 + pays)) =
    (fun acc p => if p.id == wid then acc
      else (recSet acc.1 p.id (-(tsumoOut wib dp ndp p)), acc.2 + tsumoOut wib dp ndp p)) := by
  funext acc p
  by_cases h1 : p.id == wid
  · simp [h1]
  · cases wib <;> by_cases h2 : p.isDealer <;> simp [h1, h2, tsumoOut]

/-- The collected total over a skipped winner head. -/
theorem tsumoCollected_cons_skip (q : Player) (rest : List Player) (wid : String)
    (out : Player → Int) (hq : (q.id == wid) = true) :
    tsumoCollected (q :: rest) wid out = tsumoCollected rest wid out := by
  rw [tsumoCollected, tsumoCollected, List.filter_cons_of_neg (by simp [hq])]

/-- The collected total over a contributing head. -/
theorem tsumoCollected_cons_pay (q : Player) (rest : List Player) (wid : String)
    (out : Player → Int) (hq : ¬((q.id == wid) = true)) :
    tsumoCollected (q :: rest) wid out = out q + tsumoCollected rest wid out := by
  rw [tsumoCollected, tsumoCollected, List.filter_cons_of_pos (by simpa using hq),
    List.map_cons, List.sum_cons]

/-- The settlement fold of `computeTsumoPayments` over the player list, in
pointwise record form together with the collected total. -/
theorem tsumo_foldl_eq (P : List Player) (hnd : (playerIds P).Nodup) (wid : String)
    (out : Player → Int) (l : List Player) :
    ∀ (f : Player → Int) (c : Int), (∀ x ∈ l, x ∈ P) →
      l.foldl (fun acc p => if p.id == wid then acc
          else (recSet acc.1 p.id (-(out p)), acc.2 + out p))
        (P.map (fun p => (p.id, f p)), c) =
      (P.map (fun p => (p.id,
          if !(p.id == wid) && l.any (fun q => q.id == p.id) then -(out p) else f p)),
       c + tsumoCollected l wid out) := by
  induction l with
  | nil =>
    intro f c _
    simp [tsumoCollected]
  | cons q rest ih =>
    intro f c hl
    have hqP : q ∈ P := hl q (List.mem_cons_self _ _)
    have hrest : ∀ x ∈ rest, x ∈ P := fun x hx => hl x (List.mem_cons_of_mem _ hx)
    rw [List.foldl_cons]
    by_cases hq : q.id == wid
    · rw [if_pos hq, ih f c hrest]
      have heq : q.id = wid := by simpa using hq
      have hcol := tsumoCollected_cons_skip q rest wid out hq
      rw [hcol]
      congr 1
      refine List.map_eq_map_iff.mpr ?_
      intro p _
      by_cases hpw : p.id == wid
      · simp [hpw]
      · have hqid : (q.id == p.id) = false := by
          rw [heq, Bool.eq_false_iff]
          intro hb
          exact hpw (by rw [beq_symm_str]; exact hb)
        simp [List.any_cons, hqid]
    · rw [if_neg hq]
      have hrs := recSet_mapform P f q.id (-(out q)) (List.mem_map_of_mem Player.id hqP)
      rw [hrs]
      have ih' := ih (fun p => if p.id == q.id then -(out q) else f p) (c + out q) hrest
      beta_reduce at ih'
      rw [ih']
      have hcol := tsumoCollected_cons_pay q rest wid out hq
      rw [hcol]
      congr 1
      · refine List.map_eq_map_iff.mpr ?_
        intro p hp
        by_cases hpw : p.id == wid
        · have hpq : (p.id == q.id) = false := by
            rw [Bool.eq_false_iff]
            intro hb
            exact hq (by rw [← (by simpa using hb : p.id = q.id)]; exact hpw)
          simp [hpw, hpq]
        · by_cases hany : rest.any (fun q2 => q2.id == p.id)
          · simp [hpw, hany, List.any_cons]
          · by_cases hqp : q.id == p.id
            · have hpq : (p.id == q.id) = true := by rw [beq_symm_str]; exact hqp
              have hpeq : p = q :=
                List.inj_on_of_nodup_map (by simpa [playerIds] using hnd) hp hqP
                  (by simpa using hpq)
              subst hpeq
              simp [hpw, hany, List.any_cons]
            · have hpq : (p.id == q.id) = false := by
                rw [beq_symm_str, Bool.eq_false_iff]
                exact hqp
              simp [hpw, hany, hqp, hpq, List.any_cons]
      · omega

/-- Pointwise record form of `computeTsumoPayments`: every non-winner owes the
outgoing contribution, the winner holds the collected total. -/
theorem computeTsumoPayments_eq (P : List Player) (hnd : (playerIds P).Nodup)
    (w : Player) (hw : w ∈ P) (wid : String) (hwid : w.id = wid) (dp ndp tp : Int) :
    computeTsumoPayments P wid dp ndp tp =
      P.map (fun p => (p.id,
        if p.id == wid then tsumoCollected P wid (tsumoOut w.isDealer dp ndp)
        else -(tsumoOut w.isDealer dp ndp p))) := by
  have hfind : P.find? (fun p => p.id == wid) = some w := find?_id_of_nodup P hnd w hw wid hwid
  have hwidmem : wid ∈ playerIds P := hwid ▸ List.mem_map_of_mem Player.id hw
  simp only [computeTsumoPayments, hfind, base_fold_mapform P hnd]
  rw [tsumo_step_eq wid w.isDealer dp ndp]
  have hfold := tsumo_foldl_eq P hnd wid (tsumoOut w.isDealer dp ndp) P (fun _ => 0) 0
    (fun x hx => hx)
  beta_reduce at hfold
  have h1 := congrArg Prod.fst hfold
  have h2 := congrArg Prod.snd hfold
  dsimp only at h1 h2
  rw [h1, h2]
  have hrs := recSet_mapform P
    (fun p => if !(p.id == wid) && P.any (fun q => q.id == p.id) then
        -(tsumoOut w.isDealer dp ndp p) else 0)
    wid (0 + tsumoCollected P wid (tsumoOut w.isDealer dp ndp)) hwidmem
  beta_reduce at hrs
  rw [hrs]
  refine List.map_eq_map_iff.mpr ?_
  intro p hp
  by_cases hpw : p.id == wid
  · simp [hpw]
  · have hany : P.any (fun q => q.id == p.id) = true :=
      List.any_eq_true.mpr ⟨p, hp, by simp⟩
    simp [hpw, hany]

/-- Sum of a two-branch player map whose distinguished branch is hit exactly once. -/
theorem sum_map_ite_unique (P : List Player) :
    ∀ (hnd : (playerIds P).Nodup) (w : Player), w ∈ P → ∀ (F G : Player → Int),
      (P.map (fun p => if p.id == w.id then F p else G p)).sum =
        F w + ((P.filter (fun p => !(p.id == w.id))).map G).sum := by
  induction P with
  | nil => intro _ w hw; cases hw
  | cons a P ih =>
    intro hnd w hw F G
    have hnds : (a.id :: playerIds P).Nodup := by simpa [playerIds] using hnd
    have hnm : a.id ∉ playerIds P := (List.nodup_cons.mp hnds).1
    have hnd' : (playerIds P).Nodup := (List.nodup_cons.mp hnds).2
    by_cases h : a.id == w.id
    · have heq : a.id = w.id := by simpa using h
      have hwa : w = a := by
        rcases List.mem_cons.mp hw with h1 | h1
        · exact h1
        · exact absurd (heq ▸ List.mem_map_of_mem Player.id h1) hnm
      subst hwa
      rw [List.map_cons, List.sum_cons, if_pos (by simp)]
      have htail : P.map (fun p => if p.id == w.id then F p else G p) = P.map G := by
        refine List.map_eq_map_iff.mpr ?_
        intro p hp
        have hne : p.id ≠ w.id := fun he => hnm (he ▸ List.mem_map_of_mem Player.id hp)
        rw [if_neg (by simpa using hne)]
      have hfilter : (w :: P).filter (fun p => !(p.id == w.id)) =
          P.filter (fun p => !(p.id == w.id)) :=
        List.filter_cons_of_neg (by simp)
      have hall : P.filter (fun p => !(p.id == w.id)) = P := by
        refine List.filter_eq_self.mpr ?_
        intro p hp
        have hne : p.id ≠ w.id := fun he => hnm (he ▸ List.mem_map_of_mem Player.id hp)
        simpa using hne
      rw [htail, hfilter, hall]
    · have hwP : w ∈ P := by
        rcases List.mem_cons.mp hw with h1 | h1
        · exact absurd (by rw [h1]; simp : (a.id == w.id) = true) h
        · exact h1
      rw [List.map_cons, List.sum_cons, if_neg (by simpa using h),
        ih hnd' w hwP F G,
        List.filter_cons_of_pos (by simpa using Bool.eq_false_iff.mpr h),
        List.map_cons, List.sum_cons]
      ring

/-- The pointwise tsumo record values sum to zero. -/
theorem tsumo_value_sum_zero (P : List Player) (hnd : (playerIds P).Nodup)
    (w : Player) (hw : w ∈ P) (wid : String) (hwid : w.id = wid) (out : Player → Int) :
    (P.map (fun p => if p.id == wid then tsumoCollected P wid out else -(out p))).sum = 0 := by
  subst hwid
  have h := sum_map_ite_unique P hnd w hw
    (fun _ => tsumoCollected P w.id out) (fun p => -(out p))
  beta_reduce at h
  rw [h, sum_map_neg, tsumoCollected]
  ring

/-- Pointwise record form of `computeRonPayments`. -/
theorem computeRonPayments_eq (P : List Player) (hnd : (playerIds P).Nodup)
    (wid lid : String) (hwmem : wid ∈ playerIds P) (hlmem : lid ∈ playerIds P)
    (tp : Int) :
    computeRonPayments P wid lid tp =
      P.map (fun p => (p.id,
        if p.id == wid then tp else if p.id == lid then -tp else 0)) := by
  simp only [computeRonPayments, base_fold_mapform P hnd]
  have h1 := recSet_mapform P (fun _ => 0) lid (-tp) hlmem
  beta_reduce at h1
  rw [h1]
  have h2 := recSet_mapform P (fun p => if p.id == lid then -tp else 0) wid tp hwmem
  beta_reduce at h2
  rw [h2]

/-- The pointwise ron record values sum to zero when winner and loser differ. -/
theorem ron_value_sum_zero (P : List Player) (hnd : (playerIds P).Nodup)
    (w l : Player) (hw : w ∈ P) (hl : l ∈ P) (wid lid : String)
    (hwid : w.id = wid) (hlid : l.id = lid) (hne : wid ≠ lid) (tp : Int) :
    (P.map (fun p =>
      if p.id == wid then tp else if p.id == lid then -tp else 0)).sum = 0 := by
  subst hwid
  subst hlid
  have h := sum_map_ite_unique P hnd w hw
    (fun _ => tp) (fun p => if p.id == l.id then -tp else 0)
  beta_reduce at h
  rw [h]
  have hlne : l.id ≠ w.id := fun he => hne he.symm
  have hlf : l ∈ P.filter (fun p => !(p.id == w.id)) :=
    List.mem_filter.mpr ⟨hl, by simpa using hlne⟩
  have hndf : (playerIds (P.filter (fun p => !(p.id == w.id)))).Nodup :=
    List.Nodup.sublist (List.Sublist.map Player.id (List.filter_sublist P)) hnd
  have h2 := sum_map_ite_unique (P.filter (fun p => !(p.id == w.id))) hndf l hlf
    (fun _ => -tp) (fun _ => 0)
  beta_reduce at h2
  rw [h2, sum_map_constI]
  ring

/-- Applied payment deltas of a tsumo settlement sum to zero. -/
theorem computeTsumoPayments_appliedSum_zero (P : List Player)
    (hnd : (playerIds P).Nodup) (wid : String) (hmem : wid ∈ playerIds P)
    (dp ndp tp : Int) :
    appliedSum P (computeTsumoPayments P wid dp ndp tp) = 0 := by
  rcases List.mem_map.mp hmem with ⟨w, hw, hwid⟩
  rw [computeTsumoPayments_eq P hnd w hw wid hwid dp ndp tp]
  have hr := appliedSum_mapform P hnd (fun p =>
    if p.id == wid then tsumoCollected P wid (tsumoOut w.isDealer dp ndp)
    else -(tsumoOut w.isDealer dp ndp p))
  beta_reduce at hr
  rw [hr]
  exact tsumo_value_sum_zero P hnd w hw wid hwid _

/-- Record-value sum of a tsumo settlement is zero. -/
theorem computeTsumoPayments_recSum_zero (P : List Player)
    (hnd : (playerIds P).Nodup) (wid : String) (hmem : wid ∈ playerIds P)
    (dp ndp tp : Int) :
    recSum (computeTsumoPayments P wid dp ndp tp) = 0 := by
  rcases List.mem_map.mp hmem with ⟨w, hw, hwid⟩
  rw [computeTsumoPayments_eq P hnd w hw wid hwid dp ndp tp]
  have hr := recSum_mapform P (fun p =>
    if p.id == wid then tsumoCollected P wid (tsumoOut w.isDealer dp ndp)
    else -(tsumoOut w.isDealer dp ndp p))
  beta_reduce at hr
  rw [hr]
  exact tsumo_value_sum_zero P hnd w hw wid hwid _

/-- Applied payment deltas of a ron settlement sum to zero. -/
theorem computeRonPayments_appliedSum_zero (P : List Player)
    (hnd : (playerIds P).Nodup) (wid lid : String)
    (hwmem : wid ∈ playerIds P) (hlmem : lid ∈ playerIds P) (hne : wid ≠ lid)
    (tp : Int) :
    appliedSum P (computeRonPayments P wid lid tp) = 0 := by
  rcases List.mem_map.mp hwmem with ⟨w, hw, hwid⟩
  rcases List.mem_map.mp hlmem with ⟨l, hl, hlid⟩
  rw [computeRonPayments_eq P hnd wid lid hwmem hlmem tp]
  have hr := appliedSum_mapform P hnd (fun p =>
    if p.id == wid then tp else if p.id == lid then -tp else 0)
  beta_reduce at hr
  rw [hr]
  exact ron_value_sum_zero P hnd w l hw hl wid lid hwid hlid hne tp

/-- Player ids pass through the score-update map unchanged. -/
theorem map_id_scoreupd (l : List Player) (c : Player → Int) :
    (l.map (fun p => { p with score := p.score + c p })).map Player.id
      = l.map Player.id := by
  rw [List.map_map]
  rfl

/-- Scores of the score-update map. -/
theorem map_score_scoreupd (l : List Player) (c : Player → Int) :
    (l.map (fun p => { p with score := p.score + c p })).map Player.score
      = l.map (fun p => p.score + c p) := by
  rw [List.map_map]
  rfl

/-- Player ids pass through the seat-reassignment map unchanged. -/
theorem map_id_reassigned (l : List Player) (nd count : Nat) :
    (mapi (fun i p =>
      { p with isDealer := i == nd, seatWind := seatWindOf i nd count }) l).map Player.id
      = l.map Player.id := by
  rw [mapi]
  apply mapiFrom_map_proj
  intro i p
  rfl

/-- Scores pass through the seat-reassignment map unchanged. -/
theorem map_score_reassigned (l : List Player) (nd count : Nat) :
    (mapi (fun i p =>
      { p with isDealer := i == nd, seatWind := seatWindOf i nd count }) l).map Player.score
      = l.map Player.score := by
  rw [mapi]
  apply mapiFrom_map_proj
  intro i p
  rfl

/-- The player list produced by `recordWin`, explicitly. -/
theorem recordWin_players (s : GameState) (r : RoundInput) :
    (recordWin s r).players = mapi (fun i p =>
      { p with
        isDealer := i == (winAdvance s (winnerIsDealerOf s.players r.winnerId)).dealerIndex,
        seatWind := seatWindOf i
          (winAdvance s (winnerIsDealerOf s.players r.winnerId)).dealerIndex
          s.players.length })
      (s.players.map (fun p =>
        { p with score := p.score + ((recGet r.payments p.id).getD 0) })) := rfl

/-- The player list produced by `recordDraw`, explicitly. -/
theorem recordDraw_players (s : GameState) (t : List String) :
    (recordDraw s t).players = mapi (fun i p =>
      { p with
        isDealer := i == (drawAdvance s (((s.players.get? s.dealerIndex).map
          (fun p => t.contains p.id)).getD false)).dealerIndex,
        seatWind := seatWindOf i
          (drawAdvance s (((s.players.get? s.dealerIndex).map
            (fun p => t.contains p.id)).getD false)).dealerIndex
          s.players.length })
      (s.players.map (fun p =>
        { p with score := p.score +
          ((recGet (computeDrawPayments s.players t) p.id).getD 0) })) := rfl

/-- Player ids are unchanged by `recordWin`. -/
theorem recordWin_playerIds (s : GameState) (r : RoundInput) :
    playerIds (recordWin s r).players = playerIds s.players := by
  simp only [playerIds]
  rw [recordWin_players, map_id_reassigned, map_id_scoreupd]

/-- Player ids are unchanged by `recordDraw`. -/
theorem recordDraw_playerIds (s : GameState) (t : List String) :
    playerIds (recordDraw s t).players = playerIds s.players := by
  simp only [playerIds]
  rw [recordDraw_players, map_id_reassigned, map_id_scoreupd]

/-- The player count is unchanged by `recordWin`. -/
theorem recordWin_players_length (s : GameState) (r : RoundInput) :
    (recordWin s r).players.length = s.players.length := by
  rw [recordWin_players, mapi_length, List.length_map]

/-- The player count is unchanged by `recordDraw`. -/
theorem recordDraw_players_length (s : GameState) (t : List String) :
    (recordDraw s t).players.length = s.players.length := by
  rw [recordDraw_players, mapi_length, List.length_map]

/-- The score total changes under `recordWin` by the applied payment deltas. -/
theorem recordWin_scoreSum (s : GameState) (r : RoundInput) :
    scoreSum (recordWin s r) = scoreSum s + appliedSum s.players r.payments := by
  rw [scoreSum, recordWin_players, map_score_reassigned, map_score_scoreupd,
    sum_map_add s.players Player.score (fun p => (recGet r.payments p.id).getD 0)]
  rfl

/-- The score total changes under `recordDraw` by the applied draw payment deltas. -/
theorem recordDraw_scoreSum (s : GameState) (t : List String) :
    scoreSum (recordDraw s t) =
      scoreSum s + appliedSum s.players (computeDrawPayments s.players t) := by
  rw [scoreSum, recordDraw_players, map_score_reassigned, map_score_scoreupd,
    sum_map_add s.players Player.score
      (fun p => (recGet (computeDrawPayments s.players t) p.id).getD 0)]
  rfl

/-- The conservation invariant holds right after `initGame`. -/
theorem ConsInv_initGame (s : GameState) (ps : List Player) (sc : Int)
    (hnd : (ps.map Player.id).Nodup) :
    ConsInv ps.length sc (initGame s ps sc) := by
  have h : (initGame s ps sc).players = mapi (fun i p =>
      { p with score := sc, isDealer := i == 0, seatWind := WINDS.getD i Wind.East }) ps := rfl
  have h2 : (mapi (fun i p =>
      { p with score := sc, isDealer := i == 0, seatWind := WINDS.getD i Wind.East }) ps).map
      Player.id = ps.map Player.id := by
    rw [mapi]
    apply mapiFrom_map_proj
    intro i p
    rfl
  have h3 : (mapi (fun i p =>
      { p with score := sc, isDealer := i == 0, seatWind := WINDS.getD i Wind.East }) ps).map
      Player.score = ps.map (fun _ => sc) := by
    rw [mapi]
    apply mapiFrom_map_proj
    intro i p
    rfl
  refine ⟨?_, ?_, rfl, ?_⟩
  · simp only [playerIds]
    rw [h, h2]
    exact hnd
  · rw [h, mapi_length]
  · rw [scoreSum, h, h3, sum_map_constI]

/-- A `recordWin` with a calculator-produced payment mapping preserves conservation. -/
theorem ConsInv_recordWin (n0 : Nat) (sc : Int) (s : GameState) (r : RoundInput)
    (hInv : ConsInv n0 sc s) (hV : ValidWin s r) : ConsInv n0 sc (recordWin s r) := by
  obtain ⟨hnd, hlen, _, hsum⟩ := hInv
  refine ⟨?_, ?_, rfl, ?_⟩
  · rw [recordWin_playerIds]
    exact hnd
  · rw [recordWin_players_length]
    exact hlen
  · rw [recordWin_scoreSum]
    have hzero : appliedSum s.players r.payments = 0 := by
      rcases hV with ⟨wid, dp, ndp, tp, _, hmem, hpay⟩ |
        ⟨wid, lid, tp, _, _, hne, hwm, hlm, hpay⟩
      · rw [hpay]
        exact computeTsumoPayments_appliedSum_zero s.players hnd wid hmem dp ndp tp
      · rw [hpay]
        exact computeRonPayments_appliedSum_zero s.players hnd wid lid hwm hlm hne tp
    rw [hzero, add_zero]
    exact hsum

/-- A `recordDraw` on a valid tenpai set preserves conservation at 3-4 players. -/
theorem ConsInv_recordDraw (n0 : Nat) (sc : Int) (s : GameState) (t : List String)
    (hn : n0 = 3 ∨ n0 = 4) (hInv : ConsInv n0 sc s) (hV : ValidDraw s t) :
    ConsInv n0 sc (recordDraw s t) := by
  obtain ⟨hnd, hlen, hbet, hsum⟩ := hInv
  refine ⟨?_, ?_, ?_, ?_⟩
  · rw [recordDraw_playerIds]
    exact hnd
  · rw [recordDraw_players_length]
    exact hlen
  · show s.riichiBets = 0
    exact hbet
  · rw [recordDraw_scoreSum]
    have hzero : appliedSum s.players (computeDrawPayments s.players t) = 0 :=
      computeDrawPayments_appliedSum_zero s.players t hnd hV.1 hV.2
        (by rw [hlen]; exact hn)
    rw [hzero, add_zero]
    exact hsum

/-- The conservation invariant holds after every initial segment of a valid trace. -/
theorem ConsInv_runOps (n0 : Nat) (sc : Int) (hn : n0 = 3 ∨ n0 = 4) :
    ∀ (ops : List GameOp) (n : Nat) (s0 : GameState), ConsInv n0 sc s0 →
      ValidTrace s0 ops → ConsInv n0 sc (runOps s0 (ops.take n)) := by
  intro ops
  induction ops with
  | nil =>
    intro n s0 h _
    simpa [runOps] using h
  | cons op rest ih =>
    intro n s0 h htr
    cases n with
    | zero => simpa [runOps] using h
    | succ n =>
      rw [List.take_succ_cons, runOps, List.foldl_cons]
      cases htr with
      | win _ r _ hV htr2 =>
        exact ih n (recordWin s0 r) (ConsInv_recordWin n0 sc s0 r h hV) htr2
      | draw _ t _ hV htr2 =>
        exact ih n (recordDraw s0 t) (ConsInv_recordDraw n0 sc s0 t hn h hV) htr2

/-- C1: for every session started with 3 or 4 distinct-id players at a given
starting score, and for every valid sequence of `recordWin`/`recordDraw` calls
(payments produced per the Settlement Calculator rules), after every call the
sum of all player scores plus 1000 times the bet-pool size (`riichiBets`)
equals `playerCount * startingScore`. -/
theorem c1_conservation (s : GameState) (ps : List Player) (sc : Int)
    (ops : List GameOp) (n : Nat)
    (hnd : (ps.map Player.id).Nodup) (hcount : ps.length = 3 ∨ ps.length = 4)
    (htrace : ValidTrace (initGame s ps sc) ops) :
    scoreSum (runOps (initGame s ps sc) (ops.take n)) +
      1000 * ((runOps (initGame s ps sc) (ops.take n)).riichiBets : Int) =
      (ps.length : Int) * sc := by
  have h := ConsInv_runOps ps.length sc hcount ops n (initGame s ps sc)
    (ConsInv_initGame s ps sc hnd) htrace
  obtain ⟨_, _, hbet, hsum⟩ := h
  rw [hbet, hsum]
  simp

/-- Witness for C1 at a concrete four-player session and a one-draw trace. -/
theorem c1_conservation_witness :
    ((ps4.map Player.id).Nodup ∧ (ps4.length = 3 ∨ ps4.length = 4)) ∧
    scoreSum (runOps (initGame initialState ps4 25000) ([GameOp.draw ["a"]].take 1)) +
      1000 * ((runOps (initGame initialState ps4 25000)
        ([GameOp.draw ["a"]].take 1)).riichiBets : Int) = ((ps4.length : Nat) : Int) * 25000 :=
  ⟨⟨by decide, Or.inr rfl⟩,
    c1_conservation initialState ps4 25000 [GameOp.draw ["a"]] 1 (by decide) (Or.inr rfl)
      (ValidTrace.draw _ _ _ ⟨by decide, by decide⟩ (ValidTrace.nil _))⟩

/-- Dealer-win branch of the advance block. -/
theorem winAdvance_dealer (s : GameState) :
    winAdvance s true =
      { dealerIndex := s.dealerIndex
        roundNumber := s.currentRoundNumber
        roundWind := s.currentRoundWind
        honba := s.honba + 1
        phase := Phase.playing } := rfl

/-- Non-dealer-win branch of the advance block, field by field. -/
theorem winAdvance_false_fields (s : GameState) :
    (winAdvance s false).dealerIndex = (s.dealerIndex + 1) % s.players.length ∧
    (winAdvance s false).honba = 0 ∧
    ((s.dealerIndex + 1) % s.players.length = 0 →
      (s.currentRoundWind = RoundWind.East →
        (winAdvance s false).roundWind = RoundWind.South ∧
        (winAdvance s false).roundNumber = 1) ∧
      (s.currentRoundWind = RoundWind.South →
        (winAdvance s false).phase = Phase.finished)) ∧
    ((s.dealerIndex + 1) % s.players.length ≠ 0 →
      (winAdvance s false).roundNumber = (s.dealerIndex + 1) % s.players.length + 1) := by
  by_cases h : (s.dealerIndex + 1) % s.players.length = 0
  · by_cases hw : s.currentRoundWind = RoundWind.East
    · simp [winAdvance, h, hw]
    · have hws : s.currentRoundWind = RoundWind.South := by
        cases hcw : s.currentRoundWind
        · exact absurd hcw hw
        · rfl
      simp [winAdvance, h, hws]
  · simp [winAdvance, h]

/-- C4: after a `recordWin` in the active phase, a dealer winner leaves dealer,
round number and wind unchanged and increments honba; a non-dealer winner
resets honba, advances the dealer index modulo the player count, advances the
wind (first wind, with round reset to 1) or concludes the match (second wind)
on wraparound, and otherwise sets the round number to `newDealerIndex + 1`. -/
theorem c4_recordWin_rotation (s : GameState) (r : RoundInput)
    (hphase : s.phase = Phase.playing) :
    (winnerIsDealerOf s.players r.winnerId = true →
      (recordWin s r).dealerIndex = s.dealerIndex ∧
      (recordWin s r).currentRoundNumber = s.currentRoundNumber ∧
      (recordWin s r).currentRoundWind = s.currentRoundWind ∧
      (recordWin s r).honba = s.honba + 1) ∧
    (winnerIsDealerOf s.players r.winnerId = false →
      (recordWin s r).honba = 0 ∧
      (recordWin s r).dealerIndex = (s.dealerIndex + 1) % s.players.length ∧
      ((s.dealerIndex + 1) % s.players.length = 0 →
        (s.currentRoundWind = RoundWind.East →
          (recordWin s r).currentRoundWind = RoundWind.South ∧
          (recordWin s r).currentRoundNumber = 1) ∧
        (s.currentRoundWind = RoundWind.South →
          (recordWin s r).phase = Phase.finished)) ∧
      ((s.dealerIndex + 1) % s.players.length ≠ 0 →
        (recordWin s r).currentRoundNumber =
          (s.dealerIndex + 1) % s.players.length + 1)) := by
  constructor
  · intro hwd
    refine ⟨?_, ?_, ?_, ?_⟩
    · show (winAdvance s (winnerIsDealerOf s.players r.winnerId)).dealerIndex = _
      rw [hwd, winAdvance_dealer]
    · show (winAdvance s (winnerIsDealerOf s.players r.winnerId)).roundNumber = _
      rw [hwd, winAdvance_dealer]
    · show (winAdvance s (winnerIsDealerOf s.players r.winnerId)).roundWind = _
      rw [hwd, winAdvance_dealer]
    · show (winAdvance s (winnerIsDealerOf s.players r.winnerId)).honba = _
      rw [hwd, winAdvance_dealer]
  · intro hwd
    obtain ⟨ha, hb, hc, hd⟩ := winAdvance_false_fields s
    refine ⟨?_, ?_, ?_, ?_⟩
    · show (winAdvance s (winnerIsDealerOf s.players r.winnerId)).honba = 0
      rw [hwd]
      exact hb
    · show (winAdvance s (winnerIsDealerOf s.players r.winnerId)).dealerIndex = _
      rw [hwd]
      exact ha
    · intro h0
      constructor
      · intro hE
        constructor
        · show (winAdvance s (winnerIsDealerOf s.players r.winnerId)).roundWind = _
          rw [hwd]
          exact ((hc h0).1 hE).1
        · show (winAdvance s (winnerIsDealerOf s.players r.winnerId)).roundNumber = _
          rw [hwd]
          exact ((hc h0).1 hE).2
      · intro hS
        show (winAdvance s (winnerIsDealerOf s.players r.winnerId)).phase = _
        rw [hwd]
        exact (hc h0).2 hS
    · intro h0
      show (winAdvance s (winnerIsDealerOf s.players r.winnerId)).roundNumber = _
      rw [hwd]
      exact hd h0

/-- Witness for C4: the dealer of a fresh four-player session wins by discard,
so honba increments while the dealer seat stays. -/
theorem c4_recordWin_rotation_witness :
    (recordWin (initGame initialState ps4 25000) ronRoundA).honba =
      (initGame initialState ps4 25000).honba + 1 :=
  ((c4_recordWin_rotation (initGame initialState ps4 25000) ronRoundA rfl).1
    (by decide)).2.2.2

/-- The player list produced by `initGame`, explicitly. -/
theorem initGame_players (s : GameState) (ps : List Player) (sc : Int) :
    (initGame s ps sc).players = mapi (fun i p =>
      { p with score := sc, isDealer := i == 0, seatWind := WINDS.getD i Wind.East }) ps := rfl

/-- The player count after `initGame`. -/
theorem initGame_players_length (s : GameState) (ps : List Player) (sc : Int) :
    (initGame s ps sc).players.length = ps.length := by
  rw [initGame_players, mapi_length]

/-- The seat wind of seat `j` under dealer 0 is the `j`-th cardinal wind. -/
theorem seatWindOf_zero (j len : Nat) (hj : j < len) :
    seatWindOf j 0 len = WINDS.getD j Wind.East := by
  simp only [seatWindOf]
  have h1 : ((j : Int) - ((0 : Nat) : Int) + ((len : Nat) : Int)) =
      (j : Int) + ((len : Nat) : Int) * 1 := by
    push_cast
    ring
  rw [h1, Int.add_mul_emod_self_left,
    Int.emod_eq_of_lt (by positivity) (by exact_mod_cast hj)]
  simp

/-- The new dealer index chosen by the win advance block. -/
theorem winAdvance_dealerIndex_cases (s : GameState) (b : Bool) :
    (winAdvance s b).dealerIndex = s.dealerIndex ∨
    (winAdvance s b).dealerIndex = (s.dealerIndex + 1) % s.players.length := by
  cases b
  · exact Or.inr (winAdvance_false_fields s).1
  · exact Or.inl (by rw [winAdvance_dealer])

/-- The new dealer index chosen by the draw advance block. -/
theorem drawAdvance_dealerIndex_cases (s : GameState) (b : Bool) :
    (drawAdvance s b).dealerIndex = s.dealerIndex ∨
    (drawAdvance s b).dealerIndex = (s.dealerIndex + 1) % s.players.length := by
  cases b
  · right
    by_cases h : (s.dealerIndex + 1) % s.players.length = 0
    · by_cases hw : s.currentRoundWind = RoundWind.East <;> simp [drawAdvance, h, hw]
    · simp [drawAdvance, h]
  · exact Or.inl rfl

/-- The win advance block keeps the dealer index in range. -/
theorem winAdvance_dealerIndex_lt (s : GameState) (b : Bool)
    (h : s.dealerIndex < s.players.length) :
    (winAdvance s b).dealerIndex < s.players.length := by
  have hpos : 0 < s.players.length := Nat.lt_of_le_of_lt (Nat.zero_le _) h
  rcases winAdvance_dealerIndex_cases s b with he | he <;> rw [he]
  · exact h
  · exact Nat.mod_lt _ hpos

/-- The draw advance block keeps the dealer index in range. -/
theorem drawAdvance_dealerIndex_lt (s : GameState) (b : Bool)
    (h : s.dealerIndex < s.players.length) :
    (drawAdvance s b).dealerIndex < s.players.length := by
  have hpos : 0 < s.players.length := Nat.lt_of_le_of_lt (Nat.zero_le _) h
  rcases drawAdvance_dealerIndex_cases s b with he | he <;> rw [he]
  · exact h
  · exact Nat.mod_lt _ hpos

/-- The dealer/seat-wind invariant holds right after `initGame`. -/
theorem DealerInv_initGame (s : GameState) (ps : List Player) (sc : Int)
    (hpos : 0 < ps.length) : DealerInv (initGame s ps sc) := by
  constructor
  · show 0 < (initGame s ps sc).players.length
    rw [initGame_players_length]
    exact hpos
  · intro j p hjp
    rw [initGame_players, mapi_get?] at hjp
    obtain ⟨p0, hp0, hpe⟩ := Option.map_eq_some'.mp hjp
    obtain ⟨hjlt, -⟩ := List.get?_eq_some.mp hp0
    subst hpe
    constructor
    · rfl
    · show WINDS.getD j Wind.East = seatWindOf j 0 (initGame s ps sc).players.length
      rw [initGame_players_length]
      exact (seatWindOf_zero j ps.length hjlt).symm

/-- Preservation of the dealer/seat-wind invariant by `recordWin`. -/
theorem DealerInv_recordWin (s : GameState) (r : RoundInput) (h : DealerInv s) :
    DealerInv (recordWin s r) := by
  obtain ⟨hd, _⟩ := h
  have hdlt := winAdvance_dealerIndex_lt s (winnerIsDealerOf s.players r.winnerId) hd
  constructor
  · show (winAdvance s (winnerIsDealerOf s.players r.winnerId)).dealerIndex <
      (recordWin s r).players.length
    rw [recordWin_players_length]
    exact hdlt
  · intro j p hjp
    rw [recordWin_players, mapi_get?] at hjp
    obtain ⟨p0, hp0, hpe⟩ := Option.map_eq_some'.mp hjp
    subst hpe
    constructor
    · rfl
    · show seatWindOf j
        (winAdvance s (winnerIsDealerOf s.players r.winnerId)).dealerIndex s.players.length =
        seatWindOf j (recordWin s r).dealerIndex (recordWin s r).players.length
      rw [recordWin_players_length]
      rfl

/-- Preservation of the dealer/seat-wind invariant by `recordDraw`. -/
theorem DealerInv_recordDraw (s : GameState) (t : List String) (h : DealerInv s) :
    DealerInv (recordDraw s t) := by
  obtain ⟨hd, _⟩ := h
  have hdlt := drawAdvance_dealerIndex_lt s
    (((s.players.get? s.dealerIndex).map (fun p => t.contains p.id)).getD false) hd
  constructor
  · show (drawAdvance s (((s.players.get? s.dealerIndex).map
        (fun p => t.contains p.id)).getD false)).dealerIndex < (recordDraw s t).players.length
    rw [recordDraw_players_length]
    exact hdlt
  · intro j p hjp
    rw [recordDraw_players, mapi_get?] at hjp
    obtain ⟨p0, hp0, hpe⟩ := Option.map_eq_some'.mp hjp
    subst hpe
    constructor
    · rfl
    · show seatWindOf j (drawAdvance s (((s.players.get? s.dealerIndex).map
          (fun p => t.contains p.id)).getD false)).dealerIndex s.players.length =
        seatWindOf j (recordDraw s t).dealerIndex (recordDraw s t).players.length
      rw [recordDraw_players_length]
      rfl

/-- Preservation of the dealer/seat-wind invariant by `declareRiichi`. -/
theorem DealerInv_declareRiichi (s : GameState) (i : Nat) (h : DealerInv s) :
    DealerInv (declareRiichi s i) := by
  obtain ⟨hd, hpl⟩ := h
  rw [declareRiichi]
  by_cases hg : s.playerRiichi.getD i false
  · rw [if_pos hg]
    exact ⟨hd, hpl⟩
  · rw [if_neg hg]
    refine ⟨?_, ?_⟩
    · show s.dealerIndex < (mapi (fun i2 p =>
        if i2 == i then { p with score := p.score - 1000 } else p) s.players).length
      rw [mapi_length]
      exact hd
    · intro j p hjp
      have hjp2 : (mapi (fun i2 p =>
          if i2 == i then { p with score := p.score - 1000 } else p) s.players).get? j
          = some p := hjp
      rw [mapi_get?] at hjp2
      obtain ⟨p0, hp0, hpe⟩ := Option.map_eq_some'.mp hjp2
      subst hpe
      obtain ⟨hd0, hw0⟩ := hpl j p0 hp0
      constructor
      · show (if j == i then { p0 with score := p0.score - 1000 } else p0).isDealer =
          (j == s.dealerIndex)
        by_cases hji : j == i <;> simp only [hji, if_true, if_false] <;> exact hd0
      · show (if j == i then { p0 with score := p0.score - 1000 } else p0).seatWind =
          seatWindOf j s.dealerIndex (mapi (fun i2 p =>
            if i2 == i then { p with score := p.score - 1000 } else p) s.players).length
        rw [mapi_length]
        by_cases hji : j == i <;> simp only [hji, if_true, if_false] <;> exact hw0

/-- Preservation of the dealer/seat-wind invariant by `undoRiichi`. -/
theorem DealerInv_undoRiichi (s : GameState) (i : Nat) (h : DealerInv s) :
    DealerInv (undoRiichi s i) := by
  obtain ⟨hd, hpl⟩ := h
  rw [undoRiichi]
  by_cases hg : s.playerRiichi.getD i false
  · rw [if_pos hg]
    refine ⟨?_, ?_⟩
    · show s.dealerIndex < (mapi (fun i2 p =>
        if i2 == i then { p with score := p.score + 1000 } else p) s.players).length
      rw [mapi_length]
      exact hd
    · intro j p hjp
      have hjp2 : (mapi (fun i2 p =>
          if i2 == i then { p with score := p.score + 1000 } else p) s.players).get? j
          = some p := hjp
      rw [mapi_get?] at hjp2
      obtain ⟨p0, hp0, hpe⟩ := Option.map_eq_some'.mp hjp2
      subst hpe
      obtain ⟨hd0, hw0⟩ := hpl j p0 hp0
      constructor
      · show (if j == i then { p0 with score := p0.score + 1000 } else p0).isDealer =
          (j == s.dealerIndex)
        by_cases hji : j == i <;> simp only [hji, if_true, if_false] <;> exact hd0
      · show (if j == i then { p0 with score := p0.score + 1000 } else p0).seatWind =
          seatWindOf j s.dealerIndex (mapi (fun i2 p =>
            if i2 == i then { p with score := p.score + 1000 } else p) s.players).length
        rw [mapi_length]
        by_cases hji : j == i <;> simp only [hji, if_true, if_false] <;> exact hw0
  · rw [if_neg hg]
    exact ⟨hd, hpl⟩

/-- Every in-session operation preserves the dealer/seat-wind invariant. -/
theorem DealerInv_applySessionOp (s : GameState) (op : SessionOp) (h : DealerInv s) :
    DealerInv (applySessionOp s op) := by
  cases op with
  | declare i => exact DealerInv_declareRiichi s i h
  | undo i => exact DealerInv_undoRiichi s i h
  | win r => exact DealerInv_recordWin s r h
  | draw t => exact DealerInv_recordDraw s t h
  | conclude => exact h

/-- The dealer/seat-wind invariant holds along every in-session run. -/
theorem DealerInv_runSession (ops : List SessionOp) :
    ∀ s : GameState, DealerInv s → DealerInv (runSession s ops) := by
  induction ops with
  | nil => intro s h; exact h
  | cons op rest ih =>
    intro s h
    exact ih (applySessionOp s op) (DealerInv_applySessionOp s op h)

/-- C9: after initialization with 3 or 4 players and after every sequence of
in-session operations, the dealer index is in range, exactly the player at
`dealerIndex` carries the dealer flag, and every seat wind is the cardinal wind
at offset `(playerIndex - dealerIndex + playerCount) % playerCount`. -/
theorem c9_dealer_invariant (s : GameState) (ps : List Player) (sc : Int)
    (ops : List SessionOp) (hn : ps.length = 3 ∨ ps.length = 4) :
    DealerInv (runSession (initGame s ps sc) ops) :=
  DealerInv_runSession ops _
    (DealerInv_initGame s ps sc (by rcases hn with h | h <;> omega))

/-- Witness for C9 on a concrete four-player session with a bet and a draw. -/
theorem c9_dealer_invariant_witness :
    (ps4.length = 3 ∨ ps4.length = 4) ∧
    DealerInv (runSession (initGame initialState ps4 25000)
      [SessionOp.declare 0, SessionOp.draw ["a"]]) :=
  ⟨Or.inr rfl, c9_dealer_invariant initialState ps4 25000
    [SessionOp.declare 0, SessionOp.draw ["a"]] (Or.inr rfl)⟩

/-- Setting an index back to the value it already holds is the identity. -/
theorem set_of_get? (l : List Bool) :
    ∀ (i : Nat) (a : Bool), l.get? i = some a → l.set i a = l := by
  induction l with
  | nil =>
    intro i a h
    cases i <;> exact absurd h (by simp)
  | cons x l ih =>
    intro i a h
    cases i with
    | zero =>
      obtain rfl : x = a := by simpa using h
      rfl
    | succ i =>
      simp only [List.set]
      rw [ih i a (by simpa using h)]

/-- C8: declaring and then retracting a bet for a player whose bet is not yet
declared restores the players, flags and bet pool exactly; re-declaring an
already-declared bet and retracting a non-declared bet are complete no-ops. -/
theorem c8_declare_retract (s : GameState) (i : Nat)
    (hi : i < s.players.length) (hir : i < s.playerRiichi.length)
    (hflag : s.playerRiichi.get? i = some false) :
    ((undoRiichi (declareRiichi s i) i).players = s.players ∧
     (undoRiichi (declareRiichi s i) i).playerRiichi = s.playerRiichi ∧
     (undoRiichi (declareRiichi s i) i).riichiBets = s.riichiBets) ∧
    (∀ s1 : GameState, ∀ j : Nat, s1.playerRiichi.getD j false = true →
      declareRiichi s1 j = s1) ∧
    (∀ s1 : GameState, ∀ j : Nat, s1.playerRiichi.getD j false = false →
      undoRiichi s1 j = s1) := by
  have hgd : s.playerRiichi.getD i false = false := by
    show (s.playerRiichi.get? i).getD false = false
    rw [hflag]
    rfl
  have hdecl : declareRiichi s i =
      { s with
        players := mapi (fun i2 p =>
          if i2 == i then { p with score := p.score - 1000 } else p) s.players
        playerRiichi := s.playerRiichi.set i true
        riichiBets := s.riichiBets + 1 } := by
    rw [declareRiichi, if_neg (fun hx => Bool.noConfusion (hgd ▸ hx))]
  have hflag2 : (s.playerRiichi.set i true).getD i false = true := by
    show ((s.playerRiichi.set i true).get? i).getD false = true
    rw [List.get?_set_eq_of_lt true hir]
    rfl
  have hundo : undoRiichi (declareRiichi s i) i =
      { s with
        players := mapi (fun i2 p => if i2 == i then { p with score := p.score + 1000 } else p)
          (mapi (fun i2 p => if i2 == i then { p with score := p.score - 1000 } else p)
            s.players)
        playerRiichi := (s.playerRiichi.set i true).set i false
        riichiBets := max 0 (s.riichiBets + 1 - 1) } := by
    rw [hdecl, undoRiichi, if_pos hflag2]
  refine ⟨⟨?_, ?_, ?_⟩, ?_, ?_⟩
  · rw [hundo]
    show mapi _ (mapi _ s.players) = s.players
    rw [mapi, mapi, mapiFrom_comp]
    apply mapiFrom_id
    intro n p
    by_cases hn : n == i
    · cases p
      simp [hn]
    · simp [hn]
  · rw [hundo]
    show (s.playerRiichi.set i true).set i false = s.playerRiichi
    rw [List.set_set]
    exact set_of_get? s.playerRiichi i false hflag
  · rw [hundo]
    show max 0 (s.riichiBets + 1 - 1) = s.riichiBets
    simp
  · intro s1 j h
    rw [declareRiichi, if_pos h]
  · intro s1 j h
    rw [undoRiichi, if_neg (fun hx => Bool.noConfusion (h ▸ hx))]

/-- Witness for C8 on seat 0 of a fresh four-player session. -/
theorem c8_declare_retract_witness :
    (undoRiichi (declareRiichi (initGame initialState ps4 25000) 0) 0).riichiBets =
      (initGame initialState ps4 25000).riichiBets :=
  ((c8_declare_retract (initGame initialState ps4 25000) 0 (by decide) (by decide)
    (by decide)).1).2.2

/-- C2 (code behaviour at the failing input): after a four-player session is
concluded, `recordWin` with the dealer as winner is still applied and moves the
phase back to `playing`, and `declareRiichi` still mutates the state; the
concluded phase is not terminal in the code. -/
theorem c2_concluded_not_terminal :
    (endGame (initGame initialState ps4 25000)).phase = Phase.finished ∧
    (recordWin (endGame (initGame initialState ps4 25000)) ronRoundA).phase =
      Phase.playing ∧
    declareRiichi (endGame (initGame initialState ps4 25000)) 0 ≠
      endGame (initGame initialState ps4 25000) := by
  refine ⟨rfl, by decide, by decide⟩

/-- C3 counterexample: `recordDraw` does not carry the bet-declared flags
forward; a declared flag is cleared by the draw. -/
theorem c3_flags_counterexample :
    (recordDraw (declareRiichi (initGame initialState ps4 25000) 0) ["a"]).playerRiichi ≠
      (declareRiichi (initGame initialState ps4 25000) 0).playerRiichi := by
  decide

/-- C3 (amended): `recordDraw` never changes the bet-pool size and always
increments honba by exactly one for every tenpai input, but the per-player
bet-declared flags are reset to all-false rather than carried forward. -/
theorem c3_draw_frame (s : GameState) (t : List String) :
    (recordDraw s t).riichiBets = s.riichiBets ∧
    (recordDraw s t).honba = s.honba + 1 ∧
    (recordDraw s t).playerRiichi = List.replicate s.players.length false :=
  ⟨rfl, rfl, rfl⟩

/-- C5: on a tenpai set of player ids, the draw settlement maps every player id;
it is all-zero exactly when the set is empty or contains every player, and
otherwise pays each tenpai player `⌊3000 / tenpaiCount⌋` and charges each noten
player `⌊3000 / notenCount⌋`. -/
theorem c5_draw_settlement (players : List Player) (t : List String)
    (hnd : (playerIds players).Nodup) (ht : t.Nodup)
    (hsub : ∀ k ∈ t, k ∈ playerIds players) :
    (∀ k ∈ playerIds players, (recGet (computeDrawPayments players t) k).isSome) ∧
    ((t = [] ∨ ∀ k ∈ playerIds players, k ∈ t) →
      ∀ k ∈ playerIds players, recGet (computeDrawPayments players t) k = some 0) ∧
    (t ≠ [] → ¬(∀ k ∈ playerIds players, k ∈ t) →
      (∀ k ∈ t, recGet (computeDrawPayments players t) k =
        some ((3000 / t.length : Nat) : Int)) ∧
      (∀ k ∈ playerIds players, k ∉ t →
        recGet (computeDrawPayments players t) k =
          some (-(((3000 / (players.length - t.length) : Nat) : Int))))) := by
  have hiff := length_eq_iff_all_mem (playerIds players) t hnd ht hsub
  have hids : (playerIds players).length = players.length := List.length_map _ _
  refine ⟨?_, ?_, ?_⟩
  · intro k hk
    rcases List.mem_map.mp hk with ⟨p, hp, hpk⟩
    by_cases hguard : t.length = 0 ∨ t.length = players.length
    · rw [computeDrawPayments_guard players t hnd hguard]
      have h := mapform_recGet players (fun _ => 0) hnd p hp
      beta_reduce at h
      rw [← hpk, h]
      rfl
    · rw [computeDrawPayments_else players t hnd ht hsub hguard]
      have h := mapform_recGet players (fun p =>
        if t.contains p.id then ((3000 / t.length : Nat) : Int)
        else -(((3000 / (players.length - t.length) : Nat) : Int))) hnd p hp
      beta_reduce at h
      rw [← hpk, h]
      rfl
  · intro hcond k hk
    have hguard : t.length = 0 ∨ t.length = players.length := by
      rcases hcond with hE | hAll
      · left
        rw [hE]
        rfl
      · right
        rw [← hids]
        exact hiff.mpr hAll
    rw [computeDrawPayments_guard players t hnd hguard]
    rcases List.mem_map.mp hk with ⟨p, hp, hpk⟩
    have h := mapform_recGet players (fun _ => 0) hnd p hp
    beta_reduce at h
    rw [← hpk, h]
  · intro hne hnall
    have hguard : ¬(t.length = 0 ∨ t.length = players.length) := by
      rintro (h0 | hfull)
      · exact hne (List.length_eq_zero.mp h0)
      · exact hnall (hiff.mp (by rw [hids]; exact hfull))
    rw [computeDrawPayments_else players t hnd ht hsub hguard]
    constructor
    · intro k hk
      rcases List.mem_map.mp (hsub k hk) with ⟨p, hp, hpk⟩
      have h := mapform_recGet players (fun p =>
        if t.contains p.id then ((3000 / t.length : Nat) : Int)
        else -(((3000 / (players.length - t.length) : Nat) : Int))) hnd p hp
      beta_reduce at h
      rw [← hpk, h, if_pos (by rw [hpk]; exact List.elem_iff.mpr hk)]
    · intro k hk hknt
      rcases List.mem_map.mp hk with ⟨p, hp, hpk⟩
      have h := mapform_recGet players (fun p =>
        if t.contains p.id then ((3000 / t.length : Nat) : Int)
        else -(((3000 / (players.length - t.length) : Nat) : Int))) hnd p hp
      beta_reduce at h
      have hc : t.contains p.id = false := by
        rw [Bool.eq_false_iff]
        intro hb
        exact hknt (hpk ▸ List.elem_iff.mp hb)
      rw [← hpk, h, hc]
      simp

/-- Witness for C5: one tenpai player out of four receives the full 3000 pool. -/
theorem c5_draw_settlement_witness :
    recGet (computeDrawPayments (initGame initialState ps4 25000).players ["a"]) "a" =
      some 3000 :=
  (((c5_draw_settlement (initGame initialState ps4 25000).players ["a"]
    (by decide) (by decide) (by decide)).2.2 (by decide) (by decide)).1 "a" (by decide))

/-- C6: in the tsumo settlement over a list with distinct ids containing the
winner, every non-winner pays the dealer rate when the winner is the dealer,
otherwise the dealer rate if they are the dealer and the non-dealer rate if
not; the winner's entry is the sum of all outgoing payments, and the mapping
sums to exactly zero. -/
theorem c6_tsumo_settlement (P : List Player) (wid : String) (dp ndp tp : Int)
    (w : Player) (hnd : (playerIds P).Nodup) (hw : w ∈ P) (hwid : w.id = wid) :
    (∀ p ∈ P, p.id ≠ wid →
      recGet (computeTsumoPayments P wid dp ndp tp) p.id =
        some (-(if w.isDealer then dp else if p.isDealer then dp else ndp))) ∧
    recGet (computeTsumoPayments P wid dp ndp tp) wid =
      some (tsumoCollected P wid (tsumoOut w.isDealer dp ndp)) ∧
    recSum (computeTsumoPayments P wid dp ndp tp) = 0 := by
  rw [computeTsumoPayments_eq P hnd w hw wid hwid dp ndp tp]
  refine ⟨?_, ?_, ?_⟩
  · intro p hp hne
    have h := mapform_recGet P (fun p2 =>
      if p2.id == wid then tsumoCollected P wid (tsumoOut w.isDealer dp ndp)
      else -(tsumoOut w.isDealer dp ndp p2)) hnd p hp
    beta_reduce at h
    rw [h, if_neg (by simpa using hne)]
    rfl
  · have h := mapform_recGet P (fun p2 =>
      if p2.id == wid then tsumoCollected P wid (tsumoOut w.isDealer dp ndp)
      else -(tsumoOut w.isDealer dp ndp p2)) hnd w hw
    beta_reduce at h
    rw [hwid] at h
    rw [h, if_pos (by simp)]
  · have hr := recSum_mapform P (fun p2 =>
      if p2.id == wid then tsumoCollected P wid (tsumoOut w.isDealer dp ndp)
      else -(tsumoOut w.isDealer dp ndp p2))
    beta_reduce at hr
    rw [hr]
    exact tsumo_value_sum_zero P hnd w hw wid hwid _

/-- Witness for C6: dealer `"a"` self-draws 2000 from each of three players. -/
theorem c6_tsumo_settlement_witness :
    recSum (computeTsumoPayments (initGame initialState ps4 25000).players
      "a" 2000 1000 4000) = 0 :=
  (c6_tsumo_settlement (initGame initialState ps4 25000).players "a" 2000 1000 4000
    ((initGame initialState ps4 25000).players.head (by decide))
    (by decide) (by decide) (by decide)).2.2

/-- C7 (code behaviour at the failing input): `initGame` accepts an unsupported
five-player count and starts the session instead of rejecting the call,
and `recordWin` invoked from the `setup` phase is applied rather than rejected. -/
theorem c7_no_validation :
    initialState.phase = Phase.setup ∧
    (initGame initialState ps5 25000).phase = Phase.playing ∧
    (initGame initialState ps5 25000).players.length = 5 ∧
    recordWin initialState ronRoundA ≠ initialState := by
  refine ⟨rfl, rfl, rfl, by decide⟩

/-- C10: for 3-4 players with distinct ids and any tenpai subset, the draw
payment mapping sums to exactly zero: every reachable tenpai and noten count
divides the 3000-point pool evenly, so no floor-division remainder is lost. -/
theorem c10_draw_zero_sum (players : List Player) (t : List String)
    (hn : players.length = 3 ∨ players.length = 4)
    (hnd : (playerIds players).Nodup) (ht : t.Nodup)
    (hsub : ∀ k ∈ t, k ∈ playerIds players) :
    recSum (computeDrawPayments players t) = 0 :=
  computeDrawPayments_recSum_zero players t hnd ht hsub hn

/-- Witness for C10: two tenpai players out of four. -/
theorem c10_draw_zero_sum_witness :
    recSum (computeDrawPayments (initGame initialState ps4 25000).players ["a", "b"]) = 0 :=
  c10_draw_zero_sum (initGame initialState ps4 25000).players ["a", "b"]
    (Or.inr (by decide)) (by decide) (by decide) (by decide)

end Mahjong
